import Mathlib

/-!
Verification development for the zapdriver decorating core (`core.go`).

The repository source under verification is the single file `core.go`:
the `core` wrapper around a zap core, its `With`/`Write` pipeline, the
`extractLabels` field classifier, the `ToInterface` value normalizer, the
`allLabels` union, and the three entry-decoration rules
(`withSourceLocation`, `withServiceContext`, `withErrorReport`).

The `labels` store type, the `isLabelField` predicate, the `labelsField`
wrapper and the `SourceLocation`/`ServiceContext`/`ErrorReport` field
constructors with their reserved keys live outside the provided source;
those definitions are modelled from the spec and marked as such.
-/

namespace Zapdriver

/-- A Go `*time.Location` value attached to a `time.Time`
(`utc` = `time.UTC`, `local` = the process-local zone as produced by
`time.Unix`, `fixed` = any other named location). -/
inductive Location where
  | utc
  | local
  | fixed (name : String)
deriving DecidableEq, Repr

/-- The `Interface` slot of a `zapcore.Field` (`interface{}`): either the
nil interface, a `*time.Location`, or some other interface value
identified abstractly by a tag. -/
inductive Iface where
  | none
  | loc (l : Location)
  | raw (tag : Nat)
deriving DecidableEq, Repr

/-- Model of `zapcore.Field`: a key plus a tagged value. `type` is the
`zapcore.FieldType` byte, `integer` the `Integer int64` slot, `str` the
`String` slot, `iface` the `Interface` slot. -/
structure Field where
  key : String
  type : Nat
  integer : Int
  str : String
  iface : Iface
deriving DecidableEq, Repr

/- The `zapcore.FieldType` constants (iota values of the zapcore enum). -/

def ArrayMarshalerType : Nat := 1
def ObjectMarshalerType : Nat := 2
def BinaryType : Nat := 3
def BoolType : Nat := 4
def ByteStringType : Nat := 5
def Complex128Type : Nat := 6
def Complex64Type : Nat := 7
def DurationType : Nat := 8
def Float64Type : Nat := 9
def Float32Type : Nat := 10
def Int64Type : Nat := 11
def Int32Type : Nat := 12
def Int16Type : Nat := 13
def Int8Type : Nat := 14
def StringType : Nat := 15
def TimeType : Nat := 16
def Uint64Type : Nat := 18
def Uint32Type : Nat := 19
def Uint16Type : Nat := 20
def Uint8Type : Nat := 21
def UintptrType : Nat := 22
def ReflectType : Nat := 23
def NamespaceType : Nat := 24
def StringerType : Nat := 25
def ErrorType : Nat := 26
def SkipType : Nat := 27

/-- The tags handled by a named case of the `switch` in `ToInterface`;
every other byte value falls to the `default` arm.  (`0`, the zapcore
`UnknownType`, and `17`, a tag added by later zap versions, are among the
unhandled values.) -/
def recognizedTags : List Nat :=
  [ArrayMarshalerType, ObjectMarshalerType, BinaryType, BoolType,
   ByteStringType, Complex128Type, Complex64Type, DurationType,
   Float64Type, Float32Type, Int64Type, Int32Type, Int16Type, Int8Type,
   StringType, TimeType, Uint64Type, Uint32Type, Uint16Type, Uint8Type,
   UintptrType, ReflectType, NamespaceType, StringerType, ErrorType,
   SkipType]

/-- The generic (`interface{}`) value produced by `ToInterface`.
Floating-point results are represented exactly by their IEEE bit
patterns (`math.Float64frombits` / `math.Float32frombits` are injective),
and Go interface values asserted and returned unchanged are represented
by the `boxed` constructor carrying the field's interface slot. -/
inductive GoValue where
  | nil
  | bool (b : Bool)
  | int64 (i : Int)
  | int32 (i : Int)
  | int16 (i : Int)
  | int8 (i : Int)
  | uint64 (n : Nat)
  | uint32 (n : Nat)
  | uint16 (n : Nat)
  | uint8 (n : Nat)
  | uintptr (n : Nat)
  | float64bits (n : Nat)
  | float32bits (n : Nat)
  | str (s : String)
  | duration (i : Int)
  | time (ns : Int) (loc : Location)
  | boxed (o : Iface)
deriving DecidableEq, Repr

/-- Go conversion `uintW(i)` of an `int64`: the value modulo `2 ^ w`. -/
def toUnsigned (w : Nat) (i : Int) : Nat := (i % (2 ^ w : Nat)).toNat

/-- Go conversion `intW(i)` of an `int64`: two's-complement wrap-around
into `[-2 ^ (w-1), 2 ^ (w-1))`. -/
def toSigned (w : Nat) (i : Int) : Int :=
  (i + 2 ^ (w - 1)) % (2 ^ w : Nat) - 2 ^ (w - 1)

/-- The `default` arm of `ToInterface`:
`fmt.Sprintf("unknown field type: %v", f)`.  The `%v` rendering of the
field struct is abstracted to the field's tag byte; only the fixed
descriptive prefix matters to the properties proved below. -/
def unknownFieldMsg (f : Field) : String :=
  "unknown field type: " ++ toString f.type

/-- Model of `ToInterface` (`core.go` lines 141-204): the `switch f.Type` mapping a
typed field to a generic value.  Go interface type assertions that return
the asserted value unchanged are modelled as returning the interface slot
(`GoValue.boxed`).  In the `TimeType` arm, `time.Unix(0, f.Integer)`
carries the process-local zone, and `.In(loc)` re-locates the same
instant; the assertion `f.Interface.(*time.Location)` is modelled on
location-valued slots (a mistagged slot is a defect per the data model,
not a valid state). -/
def ToInterface (f : Field) : GoValue :=
  if f.type == ArrayMarshalerType then .boxed f.iface
  else if f.type == ObjectMarshalerType then .boxed f.iface
  else if f.type == BinaryType then .boxed f.iface
  else if f.type == BoolType then .bool (f.integer == 1)
  else if f.type == ByteStringType then .boxed f.iface
  else if f.type == Complex128Type then .boxed f.iface
  else if f.type == Complex64Type then .boxed f.iface
  else if f.type == DurationType then .duration f.integer
  else if f.type == Float64Type then .float64bits (toUnsigned 64 f.integer)
  else if f.type == Float32Type then .float32bits (toUnsigned 32 f.integer)
  else if f.type == Int64Type then .int64 f.integer
  else if f.type == Int32Type then .int32 (toSigned 32 f.integer)
  else if f.type == Int16Type then .int16 (toSigned 16 f.integer)
  else if f.type == Int8Type then .int8 (toSigned 8 f.integer)
  else if f.type == StringType then .str f.str
  else if f.type == TimeType then
    match f.iface with
    | .loc l => .time f.integer l
    | _ => .time f.integer .local
  else if f.type == Uint64Type then .uint64 (toUnsigned 64 f.integer)
  else if f.type == Uint32Type then .uint32 (toUnsigned 32 f.integer)
  else if f.type == Uint16Type then .uint16 (toUnsigned 16 f.integer)
  else if f.type == Uint8Type then .uint8 (toUnsigned 8 f.integer)
  else if f.type == UintptrType then .uintptr (toUnsigned 64 f.integer)
  else if f.type == ReflectType then .boxed f.iface
  else if f.type == NamespaceType then .nil
  else if f.type == StringerType then .boxed f.iface
  else if f.type == ErrorType then .boxed f.iface
  else if f.type == SkipType then .nil
  else .str (unknownFieldMsg f)

/-- Modelled from the spec: the Label Store is a mapping of string to
string (a Go `map[string]string` guarded by a mutex; locking is a no-op
in this sequential model).  It is represented as an association list with
unique keys; `set` is last-writer-wins as §4.1 requires. -/
def Store (α : Type) : Type := List (String × α)

instance {α : Type} [DecidableEq α] : DecidableEq (Store α) :=
  inferInstanceAs (DecidableEq (List (String × α)))

/-- Map assignment `store[k] = v`: overwrites any existing entry for `k`. -/
def Store.set {α : Type} (s : Store α) (k : String) (v : α) : Store α :=
  (k, v) :: s.filter (fun p => !(p.1 == k))

/-- Map read `store[k]`. -/
def Store.lookup {α : Type} (s : Store α) (k : String) : Option α :=
  (s.find? (fun p => p.1 == k)).map (fun p => p.2)

/-- Go loop `for k, v := range other \x7b s[k] = v \x7d`: copy every entry of `other`
into `s`, overwriting on key collision. -/
def Store.merge {α : Type} (s other : Store α) : Store α :=
  other.foldl (fun acc p => acc.set p.1 p.2) s

/-- Well-formedness of the association-list representation: keys are
distinct, as they are in any reachable Go map state. -/
def Store.wfB {α : Type} : Store α → Bool
  | [] => true
  | p :: rest => !(rest.any (fun q => q.1 == p.1)) && Store.wfB rest

/-- The `labels` store of the repository (a `map[string]string`). -/
abbrev Labels : Type := Store String

/-- Model of `newLabels()`: a fresh empty store. -/
def newLabels : Labels := []

/-- Model of `labels.reset()`: clear all entries. -/
def Labels.reset (_ : Labels) : Labels := []

/-- Modelled from the spec: `isLabelField` — a field is a label field
exactly when its key begins with the reserved label-namespace prefix
(the literal `"labels."`, the prefix stripped by `extractLabels`). -/
def isLabelField (f : Field) : Bool :=
  "labels.".data.isPrefixOf f.key.data

/-- Go call `strings.Replace(key, "labels.", "", 1)` as applied by
`extractLabels`: every key it is applied to satisfies `isLabelField`, so
the first occurrence of `"labels."` is the leading prefix and replacing
it by the empty string drops the first 7 characters. -/
def stripLabels (k : String) : String :=
  if "labels.".data.isPrefixOf k.data then String.mk (k.data.drop 7)
  else k

/-- The loop body of `extractLabels` (`core.go` lines 298-305), with the
store and pass-through accumulators explicit: a non-label field is
appended to `out`, a label field is stored under its stripped key with
its `String` slot as value. -/
def extractLabelsAux (lbls : Labels) (out : List Field) :
    List Field → Labels × List Field
  | [] => (lbls, out)
  | f :: rest =>
    if !(isLabelField f) then extractLabelsAux lbls (out ++ [f]) rest
    else extractLabelsAux (lbls.set (stripLabels f.key) f.str) out rest

/-- Model of `core.extractLabels` (`core.go` lines 293-309): split a field list
into a label store and the remaining pass-through fields. -/
def extractLabels (fields : List Field) : Labels × List Field :=
  extractLabelsAux newLabels [] fields

/- Modelled from the spec: the three reserved singleton keys ("exact
literal values are an implementation choice but must be consistent
between the writer and the checker") and the label-namespace field key. -/

def sourceKey : String := "sourceLocation"
def serviceContextKey : String := "serviceContext"
def contextKey : String := "context"
def labelsKey : String := "labels"

/-- Modelled from the spec: `SourceLocation(pc, file, line, ok)` builds
the field under the reserved source-location key encoding the caller
location; the encoded payload is abstracted into the interface slot. -/
def SourceLocation (pc : Int) (file : String) (line : Int) (ok : Bool) :
    Field :=
  { key := sourceKey, type := ObjectMarshalerType, integer := pc,
    str := file ++ ":" ++ toString line,
    iface := .raw (if ok then 1 else 0) }

/-- Modelled from the spec: `ServiceContext(name)` builds the field under
the reserved service-context key carrying the service name. -/
def ServiceContext (name : String) : Field :=
  { key := serviceContextKey, type := ObjectMarshalerType, integer := 0,
    str := name, iface := .none }

/-- Modelled from the spec: `ErrorReport(pc, file, line, ok)` builds the
field under the reserved error-report key encoding the caller location. -/
def ErrorReport (pc : Int) (file : String) (line : Int) (ok : Bool) :
    Field :=
  { key := contextKey, type := ObjectMarshalerType, integer := pc,
    str := file ++ ":" ++ toString line,
    iface := .raw (if ok then 1 else 0) }

/-- Modelled from the spec: `labelsField(lbls)` wraps a label store in a
single namespaced field (step 5 of §4.5: "append one field carrying the
full label union").  The store payload is abstracted into the interface
slot; only its key matters to the decoration rules. -/
def labelsField (_ : Labels) : Field :=
  { key := labelsKey, type := ObjectMarshalerType, integer := 0,
    str := "", iface := .raw 2 }

/-- Model of `ent.Caller` (`zapcore.EntryCaller`). -/
structure EntryCaller where
  defined : Bool
  pc : Int
  file : String
  line : Int
deriving DecidableEq, Repr

/-- Model of `zapcore.Entry`: the immutable log record handed to `Write`.
`level` is the zapcore level (`Debug = -1`, `Info = 0`, `Warn = 1`,
`Error = 2`, `DPanic = 3`, `Panic = 4`, `Fatal = 5`). -/
structure Entry where
  level : Int
  time : Int
  message : String
  caller : EntryCaller
deriving DecidableEq, Repr

/-- Test `zapcore.ErrorLevel.Enabled(l)`: true when `l >= ErrorLevel`. -/
def errorLevelEnabled (l : Int) : Bool := decide (2 ≤ l)

/-- Model of `driverConfig`. -/
structure DriverConfig where
  reportAllErrors : Bool
  serviceName : String
deriving DecidableEq, Repr

/-- The mutable state of a `core` value: the accumulated ordinary fields
and the two label stores.  The configuration is carried along; the
wrapped zap core and the remote `logging.Logger` are modelled as
parameters of the operations. -/
structure CoreState where
  fields : List Field
  permLabels : Labels
  tempLabels : Labels
  config : DriverConfig
deriving DecidableEq

/-- Model of `logLevelSeverityGoogle` (`core.go` lines 125-133): the fixed lookup
from zapcore levels to Google severity values; a missing key yields the
map's zero value (`Default = 0`). -/
def logLevelSeverityGoogle (l : Int) : Nat :=
  if l == -1 then 100
  else if l == 0 then 200
  else if l == 1 then 400
  else if l == 2 then 500
  else if l == 3 then 600
  else if l == 4 then 700
  else if l == 5 then 800
  else 0

/-- The `logging.Entry` dispatched to the remote client (`core.go` lines
226-243); the always-empty/unused slots are omitted. -/
structure GoogleEntry where
  timestamp : Int
  severity : Nat
  payload : Store GoValue
  labels : Labels
  srcFile : String
  srcLine : Int
deriving DecidableEq

/-- Model of `core.allLabels` (`core.go` lines 273-291): a fresh store receiving a
copy of the permanent entries and then a copy of the temporary entries
(so a temporary entry overwrites a permanent one with the same key). -/
def allLabels (perm temp : Labels) : Labels :=
  (newLabels.merge perm).merge temp

/-- The payload loop of `Write` (`core.go` lines 219-224): every
accumulated field normalized under its key, then the record's message
stored under `"message"`. -/
def buildPayload (accFields : List Field) (message : String) :
    Store GoValue :=
  (accFields.foldl (fun (acc : Store GoValue) f =>
    acc.set f.key (ToInterface f)) ([] : Store GoValue)).set
    "message" (.str message)

/-- Everything produced by one `core.Write` call: the successor state,
the entry dispatched to the remote client, the decorated field list
handed to the wrapped core, and the returned error. -/
structure WriteOutcome where
  state : CoreState
  remote : GoogleEntry
  localFields : List Field
  err : Option String
deriving DecidableEq

/-- Model of `core.withSourceLocation` (`core.go` lines 329-342): return the
fields unchanged if one already uses the source-location key (the Go
early-return loop is `List.any`) or the caller is undefined; otherwise
append the source-location field. -/
def withSourceLocation (ent : Entry) (fields : List Field) : List Field :=
  if fields.any (fun f => f.key == sourceKey) then fields
  else if !ent.caller.defined then fields
  else fields ++
    [SourceLocation ent.caller.pc ent.caller.file ent.caller.line true]

/-- Model of `core.withServiceContext` (`core.go` lines 344-353): return the
fields unchanged if one already uses the service-context key; otherwise
append the service-context field. -/
def withServiceContext (name : String) (fields : List Field) :
    List Field :=
  if fields.any (fun f => f.key == serviceContextKey) then fields
  else fields ++ [ServiceContext name]

/-- Model of `core.withErrorReport` (`core.go` lines 355-368): return the fields
unchanged if one already uses the error-report key or the caller is
undefined; otherwise append the error-report field. -/
def withErrorReport (ent : Entry) (fields : List Field) : List Field :=
  if fields.any (fun f => f.key == contextKey) then fields
  else if !ent.caller.defined then fields
  else fields ++
    [ErrorReport ent.caller.pc ent.caller.file ent.caller.line true]

/-- The decoration steps of `Write` (`core.go` lines 248-259): source
location, service context when a name is configured, and the error-report
rule with its generic-service-name fallback. -/
def decorate (cfg : DriverConfig) (ent : Entry) (fields : List Field) :
    List Field :=
  let fields := withSourceLocation ent fields
  let fields :=
    if cfg.serviceName != "" then withServiceContext cfg.serviceName fields
    else fields
  if cfg.reportAllErrors && errorLevelEnabled ent.level then
    let fields := withErrorReport ent fields
    if cfg.serviceName == "" then withServiceContext "unknown" fields
    else fields
  else fields

/-- Model of `core.Write` (`core.go` lines 206-265).  `coreWrite` is the wrapped
zap core's `Write` (its error is returned verbatim); `remoteOutcome` is
whatever the remote client's `Log` call does internally — `Log` returns
no value, so `Write` can make no use of it.  Steps, in source order:
classify the call's fields, merge the extracted labels into the
temporary store, build the payload from the accumulated fields plus the
message, dispatch the Google entry, append the label-union field, run
the decoration rules, reset the temporary store, and call the wrapped
core. -/
def write (st : CoreState) (coreWrite : Entry → List Field → Option String)
    (_remoteOutcome : Option String) (ent : Entry) (fields : List Field) :
    WriteOutcome :=
  let ex := extractLabels fields
  let fields := ex.2
  let tempMerged := st.tempLabels.merge ex.1
  let payload := buildPayload st.fields ent.message
  let glog : GoogleEntry :=
    { timestamp := ent.time
      severity := logLevelSeverityGoogle ent.level
      payload := payload
      labels := allLabels st.permLabels tempMerged
      srcFile := ent.caller.file
      srcLine := ent.caller.line }
  -- c.lg.Log(glog): fire and forget; remoteOutcome stays inside the client
  let fields := fields ++ [labelsField (allLabels st.permLabels tempMerged)]
  let fields := decorate st.config ent fields
  let tempAfter := Labels.reset tempMerged
  { state := { st with tempLabels := tempAfter }
    remote := glog
    localFields := fields
    err := coreWrite ent fields }

/-- Model of `core.With` (`core.go` lines 86-109): classify the fields, merge the
extracted labels into the shared permanent store, extend the accumulated
field list with the pass-through fields, and start the child scope with
a fresh temporary store. -/
def coreWith (st : CoreState) (fields : List Field) : CoreState :=
  let ex := extractLabels fields
  { st with
    permLabels := st.permLabels.merge ex.1
    fields := st.fields ++ ex.2
    tempLabels := newLabels }

/-- Presence of a key in a field list, as tested by the early-return
loops of the decoration rules. -/
def hasKey (fields : List Field) (k : String) : Bool :=
  fields.any (fun f => f.key == k)

/-- Number of fields of a list carrying a given key. -/
def countKey (fields : List Field) (k : String) : Nat :=
  (fields.filter (fun f => f.key == k)).length

/-- The guard of the error-report rule, expressed over the original
fields of a `write` call: auto-reporting on, severity at least error,
caller defined, and no caller-supplied field under the error-report key. -/
def errorReportFires (cfg : DriverConfig) (ent : Entry)
    (fields : List Field) : Bool :=
  cfg.reportAllErrors && errorLevelEnabled ent.level &&
    ent.caller.defined && !(hasKey fields contextKey)

section StoreLemmas

variable {α : Type}

theorem Store.lookup_nil (k : String) :
    (([] : Store α)).lookup k = none := rfl

theorem Store.lookup_set (s : Store α) (k k' : String) (v : α) :
    (s.set k v).lookup k' = if k' = k then some v else s.lookup k' := by
  by_cases h : k' = k
  · subst h
    simp [Store.set, Store.lookup]
  · have hk : (k == k') = false := by
      simp only [beq_eq_false_iff_ne, ne_eq]
      exact fun hc => h hc.symm
    simp only [Store.set, Store.lookup, List.find?_cons, hk, if_neg h]
    congr 1
    rw [List.find?_filter]
    congr 1
    funext p
    by_cases hp : p.1 = k'
    · subst hp
      have : (p.1 == k) = false := by
        simp only [beq_eq_false_iff_ne, ne_eq]
        exact fun hc => h hc
      simp [this]
    · simp [hp]

/-- Reading a fold of `set` operations: the last write wins, and a key
never written reads from the initial store. -/
theorem foldl_set_lookup {β : Type} (kf : β → String) (vf : β → α) :
    ∀ (l : List β) (acc : Store α) (k : String),
      Store.lookup (l.foldl (fun a b => a.set (kf b) (vf b)) acc) k
        = match l.reverse.find? (fun b => kf b == k) with
          | some b => some (vf b)
          | none => acc.lookup k := by
  intro l
  induction l with
  | nil => intro acc k; rfl
  | cons b rest ih =>
    intro acc k
    simp only [List.foldl_cons, List.reverse_cons, List.find?_append]
    rw [ih]
    cases hfind : rest.reverse.find? (fun b => kf b == k) with
    | some c => simp [hfind]
    | none =>
      simp only [hfind, Option.none_or]
      by_cases hb : kf b = k
      · simp [List.find?_cons, hb, Store.lookup_set]
      · have : (kf b == k) = false := by
          simp only [beq_eq_false_iff_ne, ne_eq]; exact hb
        simp [List.find?_cons, this, Store.lookup_set, Ne.symm hb]

/-- In a well-formed store at most one entry matches a key, so searching
from either end finds the same entry. -/
theorem Store.wf_reverse_find? (s : Store α) (h : s.wfB = true)
    (k : String) :
    s.reverse.find? (fun p => p.1 == k) = s.find? (fun p => p.1 == k) := by
  induction s with
  | nil => rfl
  | cons p rest ih =>
    simp only [Store.wfB, Bool.and_eq_true, Bool.not_eq_true'] at h
    obtain ⟨hnodup, hwf⟩ := h
    simp only [List.reverse_cons, List.find?_append, ih hwf,
      List.find?_cons]
    by_cases hp : p.1 = k
    · subst hp
      have : rest.find? (fun q => q.1 == p.1) = none := by
        rw [List.find?_eq_none]
        intro q hq hqp
        have : rest.any (fun q => q.1 == p.1) = true :=
          List.any_eq_true.mpr ⟨q, hq, hqp⟩
        rw [hnodup] at this
        exact Bool.false_ne_true this
      simp [this]
    · have hb : (p.1 == k) = false := by
        simp only [beq_eq_false_iff_ne, ne_eq]; exact hp
      simp [hb]

/-- Reading a merge: an entry of the merged-in store wins, a key it does
not hold falls back to the receiving store (`other` well-formed). -/
theorem Store.lookup_merge (s other : Store α) (h : other.wfB = true)
    (k : String) :
    (s.merge other).lookup k
      = match other.lookup k with
        | some v => some v
        | none => s.lookup k := by
  unfold Store.merge
  rw [foldl_set_lookup]
  rw [Store.wf_reverse_find? other h k]
  cases hf : other.find? (fun p => p.1 == k) with
  | some p => simp [Store.lookup, hf]
  | none => simp [Store.lookup, hf]

/-- Filtering keeps the keys of a well-formed store distinct. -/
theorem Store.wfB_filter (s : Store α) (p : String × α → Bool)
    (h : s.wfB = true) : Store.wfB (s.filter p) = true := by
  induction s with
  | nil => rfl
  | cons q rest ih =>
    simp only [Store.wfB, Bool.and_eq_true, Bool.not_eq_true'] at h
    obtain ⟨hq, hwf⟩ := h
    rw [List.filter_cons]
    by_cases hp : p q = true
    · simp only [hp, if_true, Store.wfB, Bool.and_eq_true,
        Bool.not_eq_true']
      refine ⟨?_, ih hwf⟩
      cases hany : (rest.filter p).any (fun r => r.1 == q.1) with
      | false => rfl
      | true =>
        obtain ⟨x, hx, hxq⟩ := List.any_eq_true.mp hany
        have hxr : x ∈ rest := (List.mem_filter.mp hx).1
        have : rest.any (fun r => r.1 == q.1) = true :=
          List.any_eq_true.mpr ⟨x, hxr, hxq⟩
        rw [hq] at this
        exact absurd this (by simp)
    · simp only [hp, if_false]
      exact ih hwf

/-- Setting a key keeps a well-formed store well-formed. -/
theorem Store.wfB_set (s : Store α) (k : String) (v : α)
    (h : s.wfB = true) : (s.set k v).wfB = true := by
  unfold Store.set
  simp only [Store.wfB, Bool.and_eq_true, Bool.not_eq_true']
  refine ⟨?_, Store.wfB_filter s _ h⟩
  cases hany :
      (s.filter (fun p => !(p.1 == k))).any (fun q => q.1 == k) with
  | false => rfl
  | true =>
    obtain ⟨x, hx, hxk⟩ := List.any_eq_true.mp hany
    have := (List.mem_filter.mp hx).2
    rw [hxk] at this
    exact absurd this (by simp)

/-- A fold of `set` operations keeps a well-formed store well-formed. -/
theorem Store.wfB_foldl_set {β : Type} (kf : β → String) (vf : β → α) :
    ∀ (l : List β) (acc : Store α), acc.wfB = true →
      (l.foldl (fun a b => a.set (kf b) (vf b)) acc).wfB = true := by
  intro l
  induction l with
  | nil => intro acc h; exact h
  | cons b rest ih =>
    intro acc h
    exact ih _ (Store.wfB_set acc (kf b) (vf b) h)

/-- Merging keeps a well-formed store well-formed. -/
theorem Store.wfB_merge (s other : Store α) (h : s.wfB = true) :
    (s.merge other).wfB = true :=
  Store.wfB_foldl_set (fun p : String × α => p.1)
    (fun p : String × α => p.2) other s h

end StoreLemmas

/-- Pass-through characterization of the classifier loop: the ordinary
fields are the non-label fields in their original order, appended to the
accumulator. -/
theorem extractLabelsAux_snd :
    ∀ (fs : List Field) (l : Labels) (out : List Field),
      (extractLabelsAux l out fs).2
        = out ++ fs.filter (fun f => !(isLabelField f)) := by
  intro fs
  induction fs with
  | nil => intro l out; simp [extractLabelsAux]
  | cons f rest ih =>
    intro l out
    rw [extractLabelsAux]
    by_cases hf : isLabelField f = true
    · simp [hf, ih, List.filter_cons]
    · simp only [Bool.not_eq_true] at hf
      simp [hf, ih, List.filter_cons]

/-- Store characterization of the classifier loop: the label store is the
fold of last-writer-wins writes of the label fields, stripped keys, text
values. -/
theorem extractLabelsAux_fst :
    ∀ (fs : List Field) (l : Labels) (out : List Field),
      (extractLabelsAux l out fs).1
        = (fs.filter (fun f => isLabelField f)).foldl
            (fun a f => a.set (stripLabels f.key) f.str) l := by
  intro fs
  induction fs with
  | nil => intro l out; simp [extractLabelsAux]
  | cons f rest ih =>
    intro l out
    rw [extractLabelsAux]
    by_cases hf : isLabelField f = true
    · simp [hf, ih, List.filter_cons]
    · simp only [Bool.not_eq_true] at hf
      simp [hf, ih, List.filter_cons]

/-- Direct form of the pass-through characterization. -/
theorem extractLabels_snd (fs : List Field) :
    (extractLabels fs).2 = fs.filter (fun f => !(isLabelField f)) := by
  rw [extractLabels, extractLabelsAux_snd]
  rfl

/-- Reading the extracted label store: the value of the last label field
whose stripped key matches, `none` for keys no label field produces. -/
theorem extractLabels_lookup (fs : List Field) (k : String) :
    (extractLabels fs).1.lookup k
      = match (fs.filter (fun f => isLabelField f)).reverse.find?
            (fun f => stripLabels f.key == k) with
        | some f => some f.str
        | none => none := by
  rw [extractLabels, extractLabelsAux_fst,
    foldl_set_lookup (fun f : Field => stripLabels f.key)
      (fun f : Field => f.str)]
  cases h : (fs.filter (fun f => isLabelField f)).reverse.find?
      (fun f => stripLabels f.key == k) with
  | some f => simp [h]
  | none => simp [h]; rfl

section FieldListLemmas

theorem hasKey_append (fs ts : List Field) (k : String) :
    hasKey (fs ++ ts) k = (hasKey fs k || hasKey ts k) := by
  simp [hasKey]

theorem countKey_append (fs ts : List Field) (k : String) :
    countKey (fs ++ ts) k = countKey fs k + countKey ts k := by
  simp [countKey, List.filter_append]

/-- Appending fields that all carry some other key changes nothing about
the fields under `k`. -/
theorem filter_append_keyed (fs tail : List Field) (kk k : String)
    (hk : k ≠ kk) (ht : ∀ f ∈ tail, f.key = kk) :
    (fs ++ tail).filter (fun f => f.key == k)
      = fs.filter (fun f => f.key == k) := by
  rw [List.filter_append]
  have htail : tail.filter (fun f => f.key == k) = [] := by
    rw [List.filter_eq_nil_iff]
    intro f hf
    rw [ht f hf]
    simp only [beq_iff_eq]
    exact fun hc => hk hc.symm
  rw [htail, List.append_nil]

theorem countKey_append_keyed (fs tail : List Field) (kk k : String)
    (hk : k ≠ kk) (ht : ∀ f ∈ tail, f.key = kk) :
    countKey (fs ++ tail) k = countKey fs k := by
  unfold countKey
  rw [filter_append_keyed fs tail kk k hk ht]

theorem hasKey_append_keyed (fs tail : List Field) (kk k : String)
    (hk : k ≠ kk) (ht : ∀ f ∈ tail, f.key = kk) :
    hasKey (fs ++ tail) k = hasKey fs k := by
  rw [hasKey_append]
  have : hasKey tail k = false := by
    unfold hasKey
    rw [List.any_eq_false]
    intro f hf
    rw [ht f hf]
    simp only [beq_iff_eq]
    exact fun hc => hk hc.symm
  rw [this, Bool.or_false]

end FieldListLemmas

section RuleLemmas

/-- Shape of the source-location rule: identity, or one appended field
under the source-location key. -/
theorem withSourceLocation_shape (ent : Entry) (fs : List Field) :
    withSourceLocation ent fs = fs ∨
      (hasKey fs sourceKey = false ∧ ent.caller.defined = true ∧
        withSourceLocation ent fs = fs ++
          [SourceLocation ent.caller.pc ent.caller.file
            ent.caller.line true]) := by
  unfold withSourceLocation
  by_cases h1 : fs.any (fun f => f.key == sourceKey) = true
  · left; simp [h1]
  · by_cases h2 : ent.caller.defined = true
    · right
      refine ⟨by unfold hasKey; exact Bool.eq_false_iff.mpr h1, h2, ?_⟩
      simp [h1, h2]
    · left
      simp [h1, h2]

/-- Shape of the service-context rule. -/
theorem withServiceContext_shape (name : String) (fs : List Field) :
    (hasKey fs serviceContextKey = true ∧
        withServiceContext name fs = fs) ∨
      (hasKey fs serviceContextKey = false ∧
        withServiceContext name fs = fs ++ [ServiceContext name]) := by
  unfold withServiceContext
  by_cases h1 : fs.any (fun f => f.key == serviceContextKey) = true
  · left; exact ⟨h1, by simp [h1]⟩
  · right
    refine ⟨by unfold hasKey; exact Bool.eq_false_iff.mpr h1, ?_⟩
    simp [h1]

/-- Shape of the error-report rule. -/
theorem withErrorReport_shape (ent : Entry) (fs : List Field) :
    withErrorReport ent fs = fs ∨
      (hasKey fs contextKey = false ∧ ent.caller.defined = true ∧
        withErrorReport ent fs = fs ++
          [ErrorReport ent.caller.pc ent.caller.file
            ent.caller.line true]) := by
  unfold withErrorReport
  by_cases h1 : fs.any (fun f => f.key == contextKey) = true
  · left; simp [h1]
  · by_cases h2 : ent.caller.defined = true
    · right
      refine ⟨by unfold hasKey; exact Bool.eq_false_iff.mpr h1, h2, ?_⟩
      simp [h1, h2]
    · left
      simp [h1, h2]

theorem withSourceLocation_of_hasKey (ent : Entry) (fs : List Field)
    (h : hasKey fs sourceKey = true) : withSourceLocation ent fs = fs := by
  unfold hasKey at h
  simp [withSourceLocation, h]

theorem withServiceContext_of_hasKey (name : String) (fs : List Field)
    (h : hasKey fs serviceContextKey = true) :
    withServiceContext name fs = fs := by
  unfold hasKey at h
  simp [withServiceContext, h]

theorem withErrorReport_of_hasKey (ent : Entry) (fs : List Field)
    (h : hasKey fs contextKey = true) : withErrorReport ent fs = fs := by
  unfold hasKey at h
  simp [withErrorReport, h]

theorem withSourceLocation_undefined (ent : Entry) (fs : List Field)
    (h : ent.caller.defined = false) : withSourceLocation ent fs = fs := by
  simp [withSourceLocation, h]

theorem withErrorReport_undefined (ent : Entry) (fs : List Field)
    (h : ent.caller.defined = false) : withErrorReport ent fs = fs := by
  simp [withErrorReport, h]

/-- After the source-location rule runs with a defined caller, the
source-location key is present. -/
theorem withSourceLocation_ensures (ent : Entry) (fs : List Field)
    (h : ent.caller.defined = true) :
    hasKey (withSourceLocation ent fs) sourceKey = true := by
  rcases withSourceLocation_shape ent fs with hs | ⟨h1, _, hs⟩
  · rw [hs]
    unfold withSourceLocation at hs
    by_cases h1 : fs.any (fun f => f.key == sourceKey) = true
    · exact h1
    · simp [h1, h] at hs
  · rw [hs, hasKey_append]
    have : hasKey [SourceLocation ent.caller.pc ent.caller.file
        ent.caller.line true] sourceKey = true := by
      simp [hasKey, SourceLocation]
    rw [this, Bool.or_true]

/-- The service-context rule always leaves the service-context key
present. -/
theorem withServiceContext_ensures (name : String) (fs : List Field) :
    hasKey (withServiceContext name fs) serviceContextKey = true := by
  rcases withServiceContext_shape name fs with ⟨h1, hs⟩ | ⟨h1, hs⟩
  · rw [hs]; exact h1
  · rw [hs, hasKey_append]
    have : hasKey [ServiceContext name] serviceContextKey = true := by
      simp [hasKey, ServiceContext]
    rw [this, Bool.or_true]

/-- After the error-report rule runs with a defined caller, the
error-report key is present. -/
theorem withErrorReport_ensures (ent : Entry) (fs : List Field)
    (h : ent.caller.defined = true) :
    hasKey (withErrorReport ent fs) contextKey = true := by
  rcases withErrorReport_shape ent fs with hs | ⟨h1, _, hs⟩
  · rw [hs]
    unfold withErrorReport at hs
    by_cases h1 : fs.any (fun f => f.key == contextKey) = true
    · exact h1
    · simp [h1, h] at hs
  · rw [hs, hasKey_append]
    have : hasKey [ErrorReport ent.caller.pc ent.caller.file
        ent.caller.line true] contextKey = true := by
      simp [hasKey, ErrorReport]
    rw [this, Bool.or_true]

theorem withSourceLocation_hasKey_mono (ent : Entry) (fs : List Field)
    (k : String) (h : hasKey fs k = true) :
    hasKey (withSourceLocation ent fs) k = true := by
  rcases withSourceLocation_shape ent fs with hs | ⟨_, _, hs⟩ <;>
    rw [hs] <;> simp [hasKey_append, h]

theorem withServiceContext_hasKey_mono (name : String) (fs : List Field)
    (k : String) (h : hasKey fs k = true) :
    hasKey (withServiceContext name fs) k = true := by
  rcases withServiceContext_shape name fs with ⟨_, hs⟩ | ⟨_, hs⟩ <;>
    rw [hs] <;> simp [hasKey_append, h]

theorem withErrorReport_hasKey_mono (ent : Entry) (fs : List Field)
    (k : String) (h : hasKey fs k = true) :
    hasKey (withErrorReport ent fs) k = true := by
  rcases withErrorReport_shape ent fs with hs | ⟨_, _, hs⟩ <;>
    rw [hs] <;> simp [hasKey_append, h]

/-- The source-location rule does not change what lies under any key
already present. -/
theorem withSourceLocation_filter_pres (ent : Entry) (fs : List Field)
    (k : String) (h : hasKey fs k = true) :
    (withSourceLocation ent fs).filter (fun f => f.key == k)
      = fs.filter (fun f => f.key == k) := by
  rcases withSourceLocation_shape ent fs with hs | ⟨h1, _, hs⟩
  · rw [hs]
  · rw [hs]
    refine filter_append_keyed fs _ sourceKey k ?_ ?_
    · intro he; subst he; rw [h] at h1; exact Bool.false_ne_true h1.symm
    · intro f hf
      simp only [List.mem_singleton] at hf
      rw [hf]; rfl

/-- The service-context rule does not change what lies under any key
already present. -/
theorem withServiceContext_filter_pres (name : String) (fs : List Field)
    (k : String) (h : hasKey fs k = true) :
    (withServiceContext name fs).filter (fun f => f.key == k)
      = fs.filter (fun f => f.key == k) := by
  rcases withServiceContext_shape name fs with ⟨_, hs⟩ | ⟨h1, hs⟩
  · rw [hs]
  · rw [hs]
    refine filter_append_keyed fs _ serviceContextKey k ?_ ?_
    · intro he; subst he; rw [h] at h1; exact Bool.false_ne_true h1.symm
    · intro f hf
      simp only [List.mem_singleton] at hf
      rw [hf]; rfl

/-- The error-report rule does not change what lies under any key
already present. -/
theorem withErrorReport_filter_pres (ent : Entry) (fs : List Field)
    (k : String) (h : hasKey fs k = true) :
    (withErrorReport ent fs).filter (fun f => f.key == k)
      = fs.filter (fun f => f.key == k) := by
  rcases withErrorReport_shape ent fs with hs | ⟨h1, _, hs⟩
  · rw [hs]
  · rw [hs]
    refine filter_append_keyed fs _ contextKey k ?_ ?_
    · intro he; subst he; rw [h] at h1; exact Bool.false_ne_true h1.symm
    · intro f hf
      simp only [List.mem_singleton] at hf
      rw [hf]; rfl

/-- Key presence under a key other than the source-location key passes
through the source-location rule unchanged. -/
theorem withSourceLocation_hasKey_ne (ent : Entry) (fs : List Field)
    (k : String) (hk : k ≠ sourceKey) :
    hasKey (withSourceLocation ent fs) k = hasKey fs k := by
  rcases withSourceLocation_shape ent fs with hs | ⟨_, _, hs⟩
  · rw [hs]
  · rw [hs]
    refine hasKey_append_keyed fs _ sourceKey k hk ?_
    intro f hf
    simp only [List.mem_singleton] at hf
    rw [hf]; rfl

/-- Key presence under a key other than the service-context key passes
through the service-context rule unchanged. -/
theorem withServiceContext_hasKey_ne (name : String) (fs : List Field)
    (k : String) (hk : k ≠ serviceContextKey) :
    hasKey (withServiceContext name fs) k = hasKey fs k := by
  rcases withServiceContext_shape name fs with ⟨_, hs⟩ | ⟨_, hs⟩
  · rw [hs]
  · rw [hs]
    refine hasKey_append_keyed fs _ serviceContextKey k hk ?_
    intro f hf
    simp only [List.mem_singleton] at hf
    rw [hf]; rfl

/-- Field counts under a key other than the source-location key pass
through the source-location rule unchanged. -/
theorem withSourceLocation_countKey_ne (ent : Entry) (fs : List Field)
    (k : String) (hk : k ≠ sourceKey) :
    countKey (withSourceLocation ent fs) k = countKey fs k := by
  rcases withSourceLocation_shape ent fs with hs | ⟨_, _, hs⟩
  · rw [hs]
  · rw [hs]
    refine countKey_append_keyed fs _ sourceKey k hk ?_
    intro f hf
    simp only [List.mem_singleton] at hf
    rw [hf]; rfl

/-- Field counts under a key other than the service-context key pass
through the service-context rule unchanged. -/
theorem withServiceContext_countKey_ne (name : String) (fs : List Field)
    (k : String) (hk : k ≠ serviceContextKey) :
    countKey (withServiceContext name fs) k = countKey fs k := by
  rcases withServiceContext_shape name fs with ⟨_, hs⟩ | ⟨_, hs⟩
  · rw [hs]
  · rw [hs]
    refine countKey_append_keyed fs _ serviceContextKey k hk ?_
    intro f hf
    simp only [List.mem_singleton] at hf
    rw [hf]; rfl

/-- Exact count of error-report fields added by the error-report rule:
one when the caller is defined and the key is absent, zero otherwise. -/
theorem withErrorReport_countKey_context (ent : Entry) (fs : List Field) :
    countKey (withErrorReport ent fs) contextKey
      = countKey fs contextKey +
          (if ent.caller.defined && !(hasKey fs contextKey) then 1
           else 0) := by
  by_cases h1 : hasKey fs contextKey = true
  · rw [withErrorReport_of_hasKey ent fs h1, h1]
    simp
  · have h1' : hasKey fs contextKey = false := Bool.eq_false_iff.mpr h1
    cases hdef : ent.caller.defined with
    | false => rw [withErrorReport_undefined ent fs hdef]; simp
    | true =>
      rcases withErrorReport_shape ent fs with hs | ⟨_, _, hs⟩
      · exfalso
        have := withErrorReport_ensures ent fs hdef
        rw [hs, h1'] at this
        exact Bool.false_ne_true this
      · rw [hs, countKey_append, h1']
        simp [hdef, countKey, ErrorReport, List.filter_cons]

end RuleLemmas

section DecorateLemmas

theorem decorate_hasKey_mono (cfg : DriverConfig) (ent : Entry)
    (fs : List Field) (k : String) (h : hasKey fs k = true) :
    hasKey (decorate cfg ent fs) k = true := by
  cases hsn : (cfg.serviceName == "") with
  | true =>
    cases hre : (cfg.reportAllErrors && errorLevelEnabled ent.level) with
    | true =>
      simp only [decorate, bne, hsn, hre, Bool.not_true, if_true,
        Bool.false_eq_true, if_false]
      exact withServiceContext_hasKey_mono _ _ _
        (withErrorReport_hasKey_mono _ _ _
          (withSourceLocation_hasKey_mono _ _ _ h))
    | false =>
      simp only [decorate, bne, hsn, hre, Bool.not_true,
        Bool.false_eq_true, if_false]
      exact withSourceLocation_hasKey_mono _ _ _ h
  | false =>
    cases hre : (cfg.reportAllErrors && errorLevelEnabled ent.level) with
    | true =>
      simp only [decorate, bne, hsn, hre, Bool.not_false, if_true,
        Bool.false_eq_true, if_false]
      exact withErrorReport_hasKey_mono _ _ _
        (withServiceContext_hasKey_mono _ _ _
          (withSourceLocation_hasKey_mono _ _ _ h))
    | false =>
      simp only [decorate, bne, hsn, hre, Bool.not_false, if_true,
        Bool.false_eq_true, if_false]
      exact withServiceContext_hasKey_mono _ _ _
        (withSourceLocation_hasKey_mono _ _ _ h)

/-- After decoration with a defined caller, the source-location key is
present. -/
theorem decorate_ensures_source (cfg : DriverConfig) (ent : Entry)
    (fs : List Field) (h : ent.caller.defined = true) :
    hasKey (decorate cfg ent fs) sourceKey = true := by
  cases hsn : (cfg.serviceName == "") with
  | true =>
    cases hre : (cfg.reportAllErrors && errorLevelEnabled ent.level) with
    | true =>
      simp only [decorate, bne, hsn, hre, Bool.not_true, if_true,
        Bool.false_eq_true, if_false]
      exact withServiceContext_hasKey_mono _ _ _
        (withErrorReport_hasKey_mono _ _ _
          (withSourceLocation_ensures _ _ h))
    | false =>
      simp only [decorate, bne, hsn, hre, Bool.not_true,
        Bool.false_eq_true, if_false]
      exact withSourceLocation_ensures _ _ h
  | false =>
    cases hre : (cfg.reportAllErrors && errorLevelEnabled ent.level) with
    | true =>
      simp only [decorate, bne, hsn, hre, Bool.not_false, if_true,
        Bool.false_eq_true, if_false]
      exact withErrorReport_hasKey_mono _ _ _
        (withServiceContext_hasKey_mono _ _ _
          (withSourceLocation_ensures _ _ h))
    | false =>
      simp only [decorate, bne, hsn, hre, Bool.not_false, if_true,
        Bool.false_eq_true, if_false]
      exact withServiceContext_hasKey_mono _ _ _
        (withSourceLocation_ensures _ _ h)

/-- After decoration with a configured service name, the service-context
key is present. -/
theorem decorate_ensures_service_named (cfg : DriverConfig) (ent : Entry)
    (fs : List Field) (hsn : (cfg.serviceName == "") = false) :
    hasKey (decorate cfg ent fs) serviceContextKey = true := by
  cases hre : (cfg.reportAllErrors && errorLevelEnabled ent.level) with
  | true =>
    simp only [decorate, bne, hsn, hre, Bool.not_false, if_true,
      Bool.false_eq_true, if_false]
    exact withErrorReport_hasKey_mono _ _ _
      (withServiceContext_ensures _ _)
  | false =>
    simp only [decorate, bne, hsn, hre, Bool.not_false, if_true,
      Bool.false_eq_true, if_false]
    exact withServiceContext_ensures _ _

/-- After decoration with the error-report branch taken and no service
name, the service-context key is present (the "unknown" fallback). -/
theorem decorate_ensures_service_err (cfg : DriverConfig) (ent : Entry)
    (fs : List Field)
    (hre : (cfg.reportAllErrors && errorLevelEnabled ent.level) = true)
    (hsn : (cfg.serviceName == "") = true) :
    hasKey (decorate cfg ent fs) serviceContextKey = true := by
  simp only [decorate, bne, hsn, hre, Bool.not_true, if_true,
    Bool.false_eq_true, if_false]
  exact withServiceContext_ensures _ _

/-- After decoration with the error-report branch taken and a defined
caller, the error-report key is present. -/
theorem decorate_ensures_context (cfg : DriverConfig) (ent : Entry)
    (fs : List Field)
    (hre : (cfg.reportAllErrors && errorLevelEnabled ent.level) = true)
    (h : ent.caller.defined = true) :
    hasKey (decorate cfg ent fs) contextKey = true := by
  cases hsn : (cfg.serviceName == "") with
  | true =>
    simp only [decorate, bne, hsn, hre, Bool.not_true, if_true,
      Bool.false_eq_true, if_false]
    exact withServiceContext_hasKey_mono _ _ _
      (withErrorReport_ensures _ _ h)
  | false =>
    simp only [decorate, bne, hsn, hre, Bool.not_false, if_true,
      Bool.false_eq_true, if_false]
    exact withErrorReport_ensures _ _ h

/-- A field list decorated once is a fixed point of every decoration
rule, so decorating it again changes nothing. -/
theorem decorate_idem (cfg : DriverConfig) (ent : Entry)
    (fs : List Field) :
    decorate cfg ent (decorate cfg ent fs) = decorate cfg ent fs := by
  have hsrc : withSourceLocation ent (decorate cfg ent fs)
      = decorate cfg ent fs := by
    cases hdef : ent.caller.defined with
    | false => exact withSourceLocation_undefined _ _ hdef
    | true =>
      exact withSourceLocation_of_hasKey _ _
        (decorate_ensures_source cfg ent fs hdef)
  cases hsn : (cfg.serviceName == "") with
  | true =>
    cases hre : (cfg.reportAllErrors && errorLevelEnabled ent.level) with
    | true =>
      have herr : withErrorReport ent (decorate cfg ent fs)
          = decorate cfg ent fs := by
        cases hdef : ent.caller.defined with
        | false => exact withErrorReport_undefined _ _ hdef
        | true =>
          exact withErrorReport_of_hasKey _ _
            (decorate_ensures_context cfg ent fs hre hdef)
      conv_lhs =>
        rw [decorate]
      simp only [bne, hsn, hre, Bool.not_true, if_true,
        Bool.false_eq_true, if_false]
      rw [hsrc, herr]
      exact withServiceContext_of_hasKey _ _
        (decorate_ensures_service_err cfg ent fs hre hsn)
    | false =>
      conv_lhs =>
        rw [decorate]
      simp only [bne, hsn, hre, Bool.not_true, if_true,
        Bool.false_eq_true, if_false]
      exact hsrc
  | false =>
    have hsvc : withServiceContext cfg.serviceName (decorate cfg ent fs)
        = decorate cfg ent fs :=
      withServiceContext_of_hasKey _ _
        (decorate_ensures_service_named cfg ent fs hsn)
    cases hre : (cfg.reportAllErrors && errorLevelEnabled ent.level) with
    | true =>
      have herr : withErrorReport ent (decorate cfg ent fs)
          = decorate cfg ent fs := by
        cases hdef : ent.caller.defined with
        | false => exact withErrorReport_undefined _ _ hdef
        | true =>
          exact withErrorReport_of_hasKey _ _
            (decorate_ensures_context cfg ent fs hre hdef)
      conv_lhs =>
        rw [decorate]
      simp only [bne, hsn, hre, Bool.not_false, if_true,
        Bool.false_eq_true, if_false]
      rw [hsrc, hsvc]
      exact herr
    | false =>
      conv_lhs =>
        rw [decorate]
      simp only [bne, hsn, hre, Bool.not_false, if_true,
        Bool.false_eq_true, if_false]
      rw [hsrc]
      exact hsvc

/-- Decoration never disturbs fields under a key already present in its
input: a caller-supplied reserved-key field is preserved unchanged and
no auto-derived field joins it. -/
theorem decorate_filter_pres (cfg : DriverConfig) (ent : Entry)
    (fs : List Field) (k : String) (h : hasKey fs k = true) :
    (decorate cfg ent fs).filter (fun f => f.key == k)
      = fs.filter (fun f => f.key == k) := by
  have h1 := withSourceLocation_hasKey_mono ent fs k h
  have e1 := withSourceLocation_filter_pres ent fs k h
  cases hsn : (cfg.serviceName == "") with
  | true =>
    cases hre : (cfg.reportAllErrors && errorLevelEnabled ent.level) with
    | true =>
      simp only [decorate, bne, hsn, hre, Bool.not_true, if_true,
        Bool.false_eq_true, if_false]
      rw [withServiceContext_filter_pres _ _ k
          (withErrorReport_hasKey_mono _ _ _ h1),
        withErrorReport_filter_pres _ _ k h1, e1]
    | false =>
      simp only [decorate, bne, hsn, hre, Bool.not_true,
        Bool.false_eq_true, if_false]
      exact e1
  | false =>
    cases hre : (cfg.reportAllErrors && errorLevelEnabled ent.level) with
    | true =>
      simp only [decorate, bne, hsn, hre, Bool.not_false, if_true,
        Bool.false_eq_true, if_false]
      rw [withErrorReport_filter_pres _ _ k
          (withServiceContext_hasKey_mono _ _ _ h1),
        withServiceContext_filter_pres _ _ k h1, e1]
    | false =>
      simp only [decorate, bne, hsn, hre, Bool.not_false, if_true,
        Bool.false_eq_true, if_false]
      rw [withServiceContext_filter_pres _ _ k h1]
      exact e1

/-- Exact count of error-report fields added by decoration: one when the
error-report rule fires, zero otherwise. -/
theorem decorate_countKey_context (cfg : DriverConfig) (ent : Entry)
    (fs : List Field) :
    countKey (decorate cfg ent fs) contextKey
      = countKey fs contextKey +
          (if (cfg.reportAllErrors && errorLevelEnabled ent.level) &&
              ent.caller.defined && !(hasKey fs contextKey) then 1
           else 0) := by
  have hc1 : contextKey ≠ sourceKey := by decide
  have hc2 : contextKey ≠ serviceContextKey := by decide
  have e1 := withSourceLocation_countKey_ne ent fs contextKey hc1
  have k1 := withSourceLocation_hasKey_ne ent fs contextKey hc1
  cases hsn : (cfg.serviceName == "") with
  | true =>
    cases hre : (cfg.reportAllErrors && errorLevelEnabled ent.level) with
    | true =>
      simp only [decorate, bne, hsn, hre, Bool.not_true, if_true,
        Bool.false_eq_true, if_false, Bool.true_and]
      rw [withServiceContext_countKey_ne _ _ contextKey hc2,
        withErrorReport_countKey_context, e1, k1]
    | false =>
      simp only [decorate, bne, hsn, hre, Bool.not_true,
        Bool.false_eq_true, if_false, Bool.false_and]
      rw [e1]
      simp
  | false =>
    cases hre : (cfg.reportAllErrors && errorLevelEnabled ent.level) with
    | true =>
      simp only [decorate, bne, hsn, hre, Bool.not_false, if_true,
        Bool.false_eq_true, if_false, Bool.true_and]
      rw [withErrorReport_countKey_context,
        withServiceContext_countKey_ne _ _ contextKey hc2,
        withServiceContext_hasKey_ne _ _ contextKey hc2, e1, k1]
    | false =>
      simp only [decorate, bne, hsn, hre, Bool.not_false, if_true,
        Bool.false_eq_true, if_false, Bool.false_and]
      rw [withServiceContext_countKey_ne _ _ contextKey hc2, e1]
      simp

/-- Key presence under a key other than the error-report key passes
through the error-report rule unchanged. -/
theorem withErrorReport_hasKey_ne (ent : Entry) (fs : List Field)
    (k : String) (hk : k ≠ contextKey) :
    hasKey (withErrorReport ent fs) k = hasKey fs k := by
  rcases withErrorReport_shape ent fs with hs | ⟨_, _, hs⟩
  · rw [hs]
  · rw [hs]
    refine hasKey_append_keyed fs _ contextKey k hk ?_
    intro f hf
    simp only [List.mem_singleton] at hf
    rw [hf]; rfl

/-- Field counts under a key other than the error-report key pass
through the error-report rule unchanged. -/
theorem withErrorReport_countKey_ne (ent : Entry) (fs : List Field)
    (k : String) (hk : k ≠ contextKey) :
    countKey (withErrorReport ent fs) k = countKey fs k := by
  rcases withErrorReport_shape ent fs with hs | ⟨_, _, hs⟩
  · rw [hs]
  · rw [hs]
    refine countKey_append_keyed fs _ contextKey k hk ?_
    intro f hf
    simp only [List.mem_singleton] at hf
    rw [hf]; rfl

end DecorateLemmas

section ClassifierBridges

/-- Extraction does not remove fields under a key that lacks the label
prefix (label fields all carry prefixed keys). -/
theorem hasKey_extract (fs : List Field) (k : String)
    (hk : "labels.".data.isPrefixOf k.data = false) :
    hasKey ((extractLabels fs).2) k = hasKey fs k := by
  rw [extractLabels_snd]
  unfold hasKey
  cases h : fs.any (fun f => f.key == k) with
  | true =>
    obtain ⟨f, hf, hfk⟩ := List.any_eq_true.mp h
    apply List.any_eq_true.mpr
    refine ⟨f, List.mem_filter.mpr ⟨hf, ?_⟩, hfk⟩
    have hkey : f.key = k := by simpa using hfk
    rw [Bool.not_eq_true']
    unfold isLabelField
    rw [hkey]
    exact hk
  | false =>
    rw [List.any_eq_false] at h
    rw [List.any_eq_false]
    intro f hf
    exact h f (List.mem_filter.mp hf).1

/-- Extraction does not change field counts under a key that lacks the
label prefix. -/
theorem countKey_extract (fs : List Field) (k : String)
    (hk : "labels.".data.isPrefixOf k.data = false) :
    countKey ((extractLabels fs).2) k = countKey fs k := by
  rw [extractLabels_snd]
  unfold countKey
  congr 1
  rw [List.filter_filter]
  apply List.filter_congr
  intro f hf
  by_cases hfk : (f.key == k) = true
  · have hkey : f.key = k := by simpa using hfk
    have hl : isLabelField f = false := by
      unfold isLabelField
      rw [hkey]
      exact hk
    rw [hfk, hl]
    rfl
  · have hfk' : (f.key == k) = false := Bool.eq_false_iff.mpr hfk
    rw [hfk']
    simp

end ClassifierBridges

/-- C1: field classification is a pure partition.  The pass-through list
is exactly the non-label fields in their original relative order; the
label store holds, under each stripped key, the text value of the last
label field producing that key (and nothing else); and every input field
contributes to exactly one output: a label field's stripped key is
present in the store and the field is absent from the pass-through list,
while every other field appears in the pass-through list. -/
theorem c1_classifier_partition (fields : List Field) :
    (extractLabels fields).2 = fields.filter (fun f => !(isLabelField f))
    ∧ (∀ k, (extractLabels fields).1.lookup k
        = match (fields.filter (fun f => isLabelField f)).reverse.find?
              (fun f => stripLabels f.key == k) with
          | some f => some f.str
          | none => none)
    ∧ (∀ f ∈ fields,
        (isLabelField f = true →
          ((extractLabels fields).1.lookup (stripLabels f.key)).isSome
              = true
          ∧ f ∉ (extractLabels fields).2)
        ∧ (isLabelField f = false →
            f ∈ (extractLabels fields).2)) := by
  refine ⟨extractLabels_snd fields, extractLabels_lookup fields, ?_⟩
  intro f hf
  constructor
  · intro hl
    constructor
    · rw [extractLabels_lookup]
      cases hfind : (fields.filter (fun f => isLabelField f)).reverse.find?
          (fun g => stripLabels g.key == stripLabels f.key) with
      | some g => rfl
      | none =>
        exfalso
        rw [List.find?_eq_none] at hfind
        refine hfind f ?_ ?_
        · rw [List.mem_reverse]
          exact List.mem_filter.mpr ⟨hf, hl⟩
        · simp
    · rw [extractLabels_snd]
      intro hmem
      have hmem2 := (List.mem_filter.mp hmem).2
      rw [hl] at hmem2
      exact Bool.false_ne_true hmem2
  · intro hl
    rw [extractLabels_snd]
    refine List.mem_filter.mpr ⟨hf, ?_⟩
    rw [hl]
    rfl

/-- Closed witness for C1 at a concrete field list: the label field
`labels.env = "prod"` lands in the store under `env` and not in the
pass-through list, while the ordinary field `user = "x"` passes
through. -/
theorem c1_classifier_partition_witness :
    isLabelField ⟨"labels.env", 15, 0, "prod", Iface.none⟩ = true
    ∧ (((extractLabels [⟨"labels.env", 15, 0, "prod", Iface.none⟩,
          ⟨"user", 15, 0, "x", Iface.none⟩]).1.lookup
            (stripLabels "labels.env")).isSome = true
        ∧ (⟨"labels.env", 15, 0, "prod", Iface.none⟩ : Field) ∉
            (extractLabels [⟨"labels.env", 15, 0, "prod", Iface.none⟩,
              ⟨"user", 15, 0, "x", Iface.none⟩]).2)
    ∧ (⟨"user", 15, 0, "x", Iface.none⟩ : Field) ∈
        (extractLabels [⟨"labels.env", 15, 0, "prod", Iface.none⟩,
          ⟨"user", 15, 0, "x", Iface.none⟩]).2 :=
  ⟨by decide,
   ((c1_classifier_partition
      [⟨"labels.env", 15, 0, "prod", Iface.none⟩,
       ⟨"user", 15, 0, "x", Iface.none⟩]).2.2
      ⟨"labels.env", 15, 0, "prod", Iface.none⟩ (by decide)).1 (by decide),
   ((c1_classifier_partition
      [⟨"labels.env", 15, 0, "prod", Iface.none⟩,
       ⟨"user", 15, 0, "x", Iface.none⟩]).2.2
      ⟨"user", 15, 0, "x", Iface.none⟩ (by decide)).2 (by decide)⟩

/-- C2: after every `write` the temporary label store is empty (it is
reset unconditionally before the wrapped core is called, so nothing set
during the write survives into a later write), and the permanent label
store is exactly its pre-write contents. -/
theorem c2_write_store_frame (st : CoreState)
    (cw : Entry → List Field → Option String) (r : Option String)
    (ent : Entry) (fields : List Field) :
    (write st cw r ent fields).state.tempLabels = ([] : Labels)
    ∧ (write st cw r ent fields).state.permLabels = st.permLabels :=
  ⟨rfl, rfl⟩

/-- C3: the label map dispatched with the remote entry is the snapshot
of the permanent store overlaid by the snapshot of the temporary store
as it stands at dispatch time (the pre-write temporary store merged with
the labels extracted from this call's fields): a key held by the
temporary store takes its value from there, any other key falls back to
the permanent store. -/
theorem c3_dispatched_label_union (st : CoreState)
    (cw : Entry → List Field → Option String) (r : Option String)
    (ent : Entry) (fields : List Field)
    (h1 : st.permLabels.wfB = true) (h2 : st.tempLabels.wfB = true) :
    ∀ k, ((write st cw r ent fields).remote.labels).lookup k
      = match (st.tempLabels.merge (extractLabels fields).1).lookup k with
        | some v => some v
        | none => st.permLabels.lookup k := by
  intro k
  have hremote : (write st cw r ent fields).remote.labels
      = allLabels st.permLabels
          (st.tempLabels.merge (extractLabels fields).1) := rfl
  rw [hremote]
  unfold allLabels
  have hwf2 : (st.tempLabels.merge (extractLabels fields).1).wfB = true :=
    Store.wfB_merge _ _ h2
  rw [Store.lookup_merge _ _ hwf2 k]
  cases hksp : (st.tempLabels.merge (extractLabels fields).1).lookup k with
  | some v => rfl
  | none =>
    rw [Store.lookup_merge _ _ h1 k]
    cases hp : st.permLabels.lookup k with
    | some v => rfl
    | none => rfl

/-- Closed witness for C3, mirroring the spec's scenario: a scope whose
permanent store is `env = prod` writing a field list containing
`labels.request_id = "42"` dispatches a label map answering `prod` for
`env` and `42` for `request_id`. -/
theorem c3_dispatched_label_union_witness :
    Store.wfB ([("env", "prod")] : Labels) = true
    ∧ Store.wfB (([] : Labels)) = true
    ∧ ((write ⟨[], [("env", "prod")], [], ⟨false, ""⟩⟩ (fun _ _ => none)
          none ⟨0, 0, "m", ⟨false, 0, "", 0⟩⟩
          [⟨"labels.request_id", 15, 0, "42", Iface.none⟩,
           ⟨"status", 11, 200, "", Iface.none⟩]).remote.labels).lookup
        "env" = some "prod" :=
  ⟨by decide, by decide,
   c3_dispatched_label_union ⟨[], [("env", "prod")], [], ⟨false, ""⟩⟩
     (fun _ _ => none) none ⟨0, 0, "m", ⟨false, 0, "", 0⟩⟩
     [⟨"labels.request_id", 15, 0, "42", Iface.none⟩,
      ⟨"status", 11, 200, "", Iface.none⟩] (by decide) (by decide) "env"⟩

/-- C6: `write` returns exactly the error of the wrapped core's write on
the decorated field list, and the whole outcome — in particular the
returned error and the fact that the local write is performed on those
fields — is independent of whatever the remote dispatch does. -/
theorem c6_error_propagation (st : CoreState)
    (cw : Entry → List Field → Option String) (ent : Entry)
    (fields : List Field) (r1 r2 : Option String) :
    (write st cw r1 ent fields).err
        = cw ent ((write st cw r1 ent fields).localFields)
    ∧ write st cw r1 ent fields = write st cw r2 ent fields :=
  ⟨rfl, rfl⟩

/-- C10: the remote payload reads the record's message under `"message"`
— even when an accumulated field already uses that key — and otherwise
exactly the normalized value of the last accumulated (scope-creation
time) field under each key; its keys are exactly the accumulated
fields' keys plus `"message"`; and the fields passed to the write call
itself contribute nothing to it. -/
theorem c10_remote_payload (st : CoreState)
    (cw : Entry → List Field → Option String) (r : Option String)
    (ent : Entry) (fields fields2 : List Field) :
    (∀ k, ((write st cw r ent fields).remote.payload).lookup k
        = if k = "message" then some (.str ent.message)
          else match st.fields.reverse.find? (fun f => f.key == k) with
            | some f => some (ToInterface f)
            | none => none)
    ∧ (∀ k,
        (((write st cw r ent fields).remote.payload).lookup k).isSome
          = (k == "message" || st.fields.any (fun f => f.key == k)))
    ∧ (write st cw r ent fields).remote.payload
        = (write st cw r ent fields2).remote.payload := by
  have key : ∀ k, ((write st cw r ent fields).remote.payload).lookup k
      = if k = "message" then some (.str ent.message)
        else match st.fields.reverse.find? (fun f => f.key == k) with
          | some f => some (ToInterface f)
          | none => none := by
    intro k
    have hp : (write st cw r ent fields).remote.payload
        = buildPayload st.fields ent.message := rfl
    rw [hp]
    unfold buildPayload
    rw [Store.lookup_set]
    by_cases hk : k = "message"
    · rw [if_pos hk, if_pos hk]
    · rw [if_neg hk, if_neg hk]
      rw [foldl_set_lookup (fun f : Field => f.key)
        (fun f : Field => ToInterface f)]
      cases hfind : st.fields.reverse.find? (fun f => f.key == k) with
      | some f => rfl
      | none => rfl
  refine ⟨key, ?_, rfl⟩
  intro k
  rw [key k]
  by_cases hk : k = "message"
  · subst hk
    simp
  · rw [if_neg hk]
    have hk' : (k == "message") = false := by
      simp only [beq_eq_false_iff_ne, ne_eq]
      exact hk
    rw [hk']
    cases hfind : st.fields.reverse.find? (fun f => f.key == k) with
    | none =>
      have : st.fields.any (fun f => f.key == k) = false := by
        rw [List.any_eq_false]
        intro f hf
        rw [List.find?_eq_none] at hfind
        exact hfind f (List.mem_reverse.mpr hf)
      rw [this]
      rfl
    | some f =>
      have hmem : f ∈ st.fields :=
        List.mem_reverse.mp (List.mem_of_find?_eq_some hfind)
      have hpred := List.find?_some hfind
      have : st.fields.any (fun f => f.key == k) = true :=
        List.any_eq_true.mpr ⟨f, hmem, by simpa using hpred⟩
      rw [this]
      rfl

/-- The extracted label store is well-formed. -/
theorem extractLabels_wf (fs : List Field) :
    (extractLabels fs).1.wfB = true := by
  rw [extractLabels, extractLabelsAux_fst]
  exact Store.wfB_foldl_set (fun f : Field => stripLabels f.key)
    (fun f : Field => f.str) (fs.filter (fun f => isLabelField f))
    newLabels rfl

/-- C5: the entry-decoration rules are idempotent — decorating an
already-decorated field list appends nothing — and a caller-supplied
field under any of the three reserved keys is preserved unchanged, with
no auto-derived field appended beside it. -/
theorem c5_decorator_idempotent (cfg : DriverConfig) (ent : Entry)
    (fields : List Field) :
    decorate cfg ent (decorate cfg ent fields) = decorate cfg ent fields
    ∧ (∀ k, k ∈ [sourceKey, serviceContextKey, contextKey] →
        hasKey fields k = true →
        (decorate cfg ent fields).filter (fun f => f.key == k)
          = fields.filter (fun f => f.key == k)) :=
  ⟨decorate_idem cfg ent fields,
   fun k _ h => decorate_filter_pres cfg ent fields k h⟩

/-- Closed witness for C5: a caller-supplied field under the reserved
source-location key survives decoration unchanged and alone, for a
configuration with error reporting on and no service name. -/
theorem c5_decorator_idempotent_witness :
    sourceKey ∈ [sourceKey, serviceContextKey, contextKey]
    ∧ hasKey [⟨"sourceLocation", 15, 0, "custom", Iface.none⟩]
        sourceKey = true
    ∧ (decorate ⟨true, ""⟩ ⟨2, 0, "m", ⟨true, 7, "a.go", 3⟩⟩
          [⟨"sourceLocation", 15, 0, "custom", Iface.none⟩]).filter
        (fun f => f.key == sourceKey)
        = [⟨"sourceLocation", 15, 0, "custom", Iface.none⟩].filter
            (fun f => f.key == sourceKey) :=
  ⟨by decide, by decide,
   (c5_decorator_idempotent ⟨true, ""⟩ ⟨2, 0, "m", ⟨true, 7, "a.go", 3⟩⟩
      [⟨"sourceLocation", 15, 0, "custom", Iface.none⟩]).2 sourceKey
     (by decide) (by decide)⟩

/-- C7 is false as stated: a boolean-tagged field whose integer slot
holds the non-zero value 2 normalizes to `false`, because the code
compares the slot with 1 (`f.Integer == 1`) instead of testing
non-zero-ness. -/
theorem c7_counterexample :
    ToInterface ⟨"b", BoolType, 2, "", Iface.none⟩ = GoValue.bool false
    ∧ (2 : Int) ≠ 0 := by
  exact ⟨rfl, by decide⟩

/-- C7 (amended): for every boolean-tagged field, normalization yields
the boolean `integer == 1` — true exactly when the integer slot is 1,
false for zero and for every other non-zero encoding. -/
theorem c7_bool_normalization (f : Field) (h : f.type = BoolType) :
    ToInterface f = GoValue.bool (f.integer == 1)
    ∧ (ToInterface f = GoValue.bool true ↔ f.integer = 1) := by
  obtain ⟨key, ty, int, st, ifc⟩ := f
  simp only at h
  subst h
  refine ⟨rfl, ?_⟩
  show GoValue.bool (int == 1) = GoValue.bool true ↔ int = 1
  simp

/-- Closed witness for C7 (amended) at the boolean field with integer
slot 5. -/
theorem c7_bool_normalization_witness :
    (⟨"b", BoolType, 5, "", Iface.none⟩ : Field).type = BoolType
    ∧ ToInterface ⟨"b", BoolType, 5, "", Iface.none⟩
        = GoValue.bool ((5 : Int) == 1) :=
  ⟨rfl, (c7_bool_normalization ⟨"b", BoolType, 5, "", Iface.none⟩ rfl).1⟩

/-- C9: evidence of the code bug.  At a timestamp-tagged field with a
nil location, `time.Unix(0, n)` yields a time carrying the process-local
zone, not UTC as the in-code comment ("Fall back to UTC if location is
nil.") and the spec state; a field carrying a location is correctly
re-located to it.  The instant itself is decoded correctly in both
cases. -/
theorem c9_time_fallback_is_local :
    ToInterface ⟨"t", TimeType, 0, "", Iface.none⟩
        = GoValue.time 0 Location.local
    ∧ ToInterface ⟨"t", TimeType, 7, "", Iface.loc (Location.fixed "PST")⟩
        = GoValue.time 7 (Location.fixed "PST")
    ∧ Location.local ≠ Location.utc := by
  exact ⟨rfl, rfl, by decide⟩

/-- C8: value normalization is total over field tags.  Every recognized
tag is handled by exactly one conversion rule (the per-tag equations
below, one for each of the 26 tags of the switch), any unrecognized tag
produces the non-empty descriptive diagnostic string naming the unknown
tag, and the conversion is a total function — it returns a value for
every input field and never fails. -/
theorem c8_normalizer_total (f : Field) :
    (f.type ∉ recognizedTags →
      ToInterface f = GoValue.str (unknownFieldMsg f)
      ∧ unknownFieldMsg f ≠ "")
    ∧ (f.type = ArrayMarshalerType → ToInterface f = .boxed f.iface)
    ∧ (f.type = ObjectMarshalerType → ToInterface f = .boxed f.iface)
    ∧ (f.type = BinaryType → ToInterface f = .boxed f.iface)
    ∧ (f.type = BoolType → ToInterface f = .bool (f.integer == 1))
    ∧ (f.type = ByteStringType → ToInterface f = .boxed f.iface)
    ∧ (f.type = Complex128Type → ToInterface f = .boxed f.iface)
    ∧ (f.type = Complex64Type → ToInterface f = .boxed f.iface)
    ∧ (f.type = DurationType → ToInterface f = .duration f.integer)
    ∧ (f.type = Float64Type →
        ToInterface f = .float64bits (toUnsigned 64 f.integer))
    ∧ (f.type = Float32Type →
        ToInterface f = .float32bits (toUnsigned 32 f.integer))
    ∧ (f.type = Int64Type → ToInterface f = .int64 f.integer)
    ∧ (f.type = Int32Type → ToInterface f = .int32 (toSigned 32 f.integer))
    ∧ (f.type = Int16Type → ToInterface f = .int16 (toSigned 16 f.integer))
    ∧ (f.type = Int8Type → ToInterface f = .int8 (toSigned 8 f.integer))
    ∧ (f.type = StringType → ToInterface f = .str f.str)
    ∧ (f.type = TimeType →
        ToInterface f = match f.iface with
          | .loc l => .time f.integer l
          | _ => .time f.integer .local)
    ∧ (f.type = Uint64Type →
        ToInterface f = .uint64 (toUnsigned 64 f.integer))
    ∧ (f.type = Uint32Type →
        ToInterface f = .uint32 (toUnsigned 32 f.integer))
    ∧ (f.type = Uint16Type →
        ToInterface f = .uint16 (toUnsigned 16 f.integer))
    ∧ (f.type = Uint8Type →
        ToInterface f = .uint8 (toUnsigned 8 f.integer))
    ∧ (f.type = UintptrType →
        ToInterface f = .uintptr (toUnsigned 64 f.integer))
    ∧ (f.type = ReflectType → ToInterface f = .boxed f.iface)
    ∧ (f.type = NamespaceType → ToInterface f = .nil)
    ∧ (f.type = StringerType → ToInterface f = .boxed f.iface)
    ∧ (f.type = ErrorType → ToInterface f = .boxed f.iface)
    ∧ (f.type = SkipType → ToInterface f = .nil) := by
  obtain ⟨key, ty, int, st, ifc⟩ := f
  simp only
  refine ⟨?_, fun h => by subst h; rfl, fun h => by subst h; rfl,
    fun h => by subst h; rfl, fun h => by subst h; rfl,
    fun h => by subst h; rfl, fun h => by subst h; rfl,
    fun h => by subst h; rfl, fun h => by subst h; rfl,
    fun h => by subst h; rfl, fun h => by subst h; rfl,
    fun h => by subst h; rfl, fun h => by subst h; rfl,
    fun h => by subst h; rfl, fun h => by subst h; rfl,
    fun h => by subst h; rfl, fun h => by subst h; rfl,
    fun h => by subst h; rfl, fun h => by subst h; rfl,
    fun h => by subst h; rfl, fun h => by subst h; rfl,
    fun h => by subst h; rfl, fun h => by subst h; rfl,
    fun h => by subst h; rfl, fun h => by subst h; rfl,
    fun h => by subst h; rfl, fun h => by subst h; rfl⟩
  intro hmem
  simp only [recognizedTags, List.mem_cons, List.not_mem_nil, or_false,
    not_or] at hmem
  obtain ⟨n1, n2, n3, n4, n5, n6, n7, n8, n9, n10, n11, n12, n13, n14,
    n15, n16, n17, n18, n19, n20, n21, n22, n23, n24, n25, n26⟩ := hmem
  constructor
  · simp [ToInterface, n1, n2, n3, n4, n5, n6, n7, n8, n9, n10, n11,
      n12, n13, n14, n15, n16, n17, n18, n19, n20, n21, n22, n23, n24,
      n25, n26]
  · intro hc
    unfold unknownFieldMsg at hc
    have hlen := congrArg String.length hc
    rw [String.length_append] at hlen
    have h20 : ("unknown field type: ").length = 20 := rfl
    have h0 : ("" : String).length = 0 := rfl
    rw [h20, h0] at hlen
    omega

/-- Closed witness for C8 at the unrecognized tag 17 (a tag added by
newer zap versions) and at the recognized duration tag. -/
theorem c8_normalizer_total_witness :
    (17 : Nat) ∉ recognizedTags
    ∧ ToInterface ⟨"x", 17, 3, "", Iface.none⟩
        = GoValue.str (unknownFieldMsg ⟨"x", 17, 3, "", Iface.none⟩)
    ∧ (⟨"d", DurationType, 9, "", Iface.none⟩ : Field).type = DurationType
    ∧ ToInterface ⟨"d", DurationType, 9, "", Iface.none⟩
        = GoValue.duration 9 :=
  ⟨by decide,
   ((c8_normalizer_total ⟨"x", 17, 3, "", Iface.none⟩).1 (by decide)).1,
   rfl,
   (c8_normalizer_total
      ⟨"d", DurationType, 9, "", Iface.none⟩).2.2.2.2.2.2.2.2.1 rfl⟩

/-- C4 (amended): an error-report field is appended to the decorated
field set if and only if `reportAllErrors` is configured, the record's
severity is error or higher, the record has caller information, and no
caller-supplied field already uses the error-report key; and when the
rule fires with an empty configured service name **and no caller-supplied
field already uses the service-context key**, exactly one additional
generic ("unknown") service-context field is appended. -/
theorem c4_error_report_rule (st : CoreState)
    (cw : Entry → List Field → Option String) (r : Option String)
    (ent : Entry) (fields : List Field) :
    countKey ((write st cw r ent fields).localFields) contextKey
      = countKey fields contextKey
        + (if errorReportFires st.config ent fields then 1 else 0)
    ∧ (errorReportFires st.config ent fields = true →
        (st.config.serviceName == "") = true →
        hasKey fields serviceContextKey = false →
        countKey ((write st cw r ent fields).localFields)
            serviceContextKey = countKey fields serviceContextKey + 1
          ∧ ServiceContext "unknown" ∈
              (write st cw r ent fields).localFields) := by
  have hlocal : (write st cw r ent fields).localFields
      = decorate st.config ent ((extractLabels fields).2 ++
          [labelsField (allLabels st.permLabels
            (st.tempLabels.merge (extractLabels fields).1))]) := rfl
  have htail : ∀ f ∈ [labelsField (allLabels st.permLabels
      (st.tempLabels.merge (extractLabels fields).1))],
      f.key = labelsKey := by
    intro f hf
    simp only [List.mem_singleton] at hf
    rw [hf]
    rfl
  have hbct : countKey ((extractLabels fields).2 ++
      [labelsField (allLabels st.permLabels
        (st.tempLabels.merge (extractLabels fields).1))]) contextKey
      = countKey fields contextKey := by
    rw [countKey_append_keyed _ _ labelsKey contextKey (by decide) htail]
    exact countKey_extract fields contextKey (by decide)
  have hbcth : hasKey ((extractLabels fields).2 ++
      [labelsField (allLabels st.permLabels
        (st.tempLabels.merge (extractLabels fields).1))]) contextKey
      = hasKey fields contextKey := by
    rw [hasKey_append_keyed _ _ labelsKey contextKey (by decide) htail]
    exact hasKey_extract fields contextKey (by decide)
  have hbsv : countKey ((extractLabels fields).2 ++
      [labelsField (allLabels st.permLabels
        (st.tempLabels.merge (extractLabels fields).1))])
      serviceContextKey = countKey fields serviceContextKey := by
    rw [countKey_append_keyed _ _ labelsKey serviceContextKey (by decide)
      htail]
    exact countKey_extract fields serviceContextKey (by decide)
  have hbsvh : hasKey ((extractLabels fields).2 ++
      [labelsField (allLabels st.permLabels
        (st.tempLabels.merge (extractLabels fields).1))])
      serviceContextKey = hasKey fields serviceContextKey := by
    rw [hasKey_append_keyed _ _ labelsKey serviceContextKey (by decide)
      htail]
    exact hasKey_extract fields serviceContextKey (by decide)
  constructor
  · rw [hlocal, decorate_countKey_context, hbct, hbcth]
    have hcond : ((st.config.reportAllErrors &&
        errorLevelEnabled ent.level) && ent.caller.defined &&
          !(hasKey fields contextKey))
        = errorReportFires st.config ent fields := by
      unfold errorReportFires
      cases st.config.reportAllErrors <;>
        cases errorLevelEnabled ent.level <;>
        cases ent.caller.defined <;>
        cases hasKey fields contextKey <;> rfl
    rw [hcond]
  · intro hfire hsn hsvc
    have hre : (st.config.reportAllErrors &&
        errorLevelEnabled ent.level) = true := by
      unfold errorReportFires at hfire
      cases hx : st.config.reportAllErrors <;>
        cases hy : errorLevelEnabled ent.level <;>
        rw [hx, hy] at hfire <;> first | rfl | simp at hfire
    rw [hlocal]
    simp only [decorate, bne, hsn, hre, Bool.not_true, if_true,
      Bool.false_eq_true, if_false]
    have hk1 : hasKey (withErrorReport ent (withSourceLocation ent
        ((extractLabels fields).2 ++
          [labelsField (allLabels st.permLabels
            (st.tempLabels.merge (extractLabels fields).1))])))
        serviceContextKey = false := by
      rw [withErrorReport_hasKey_ne _ _ _ (by decide),
        withSourceLocation_hasKey_ne _ _ _ (by decide), hbsvh]
      exact hsvc
    rcases withServiceContext_shape "unknown"
        (withErrorReport ent (withSourceLocation ent
          ((extractLabels fields).2 ++
            [labelsField (allLabels st.permLabels
              (st.tempLabels.merge (extractLabels fields).1))])))
      with ⟨hk2, _⟩ | ⟨_, hs⟩
    · rw [hk1] at hk2
      exact absurd hk2 (by simp)
    · rw [hs]
      constructor
      · rw [countKey_append,
          withErrorReport_countKey_ne _ _ _ (by decide),
          withSourceLocation_countKey_ne _ _ _ (by decide), hbsv]
        have hone : countKey [ServiceContext "unknown"]
            serviceContextKey = 1 := rfl
        rw [hone]
      · exact List.mem_append_right _ (by simp)

/-- Closed witness for C4 (amended): error severity, reporting on, a
defined caller, no service name and no caller service-context field —
the decorated set gains exactly one "unknown" service-context field. -/
theorem c4_error_report_rule_witness :
    errorReportFires ⟨true, ""⟩ ⟨2, 0, "boom", ⟨true, 0, "a.go", 5⟩⟩
        [⟨"user", 15, 0, "x", Iface.none⟩] = true
    ∧ ((("" : String) == "") = true)
    ∧ hasKey [⟨"user", 15, 0, "x", Iface.none⟩] serviceContextKey = false
    ∧ (countKey ((write ⟨[], [], [], ⟨true, ""⟩⟩ (fun _ _ => none) none
          ⟨2, 0, "boom", ⟨true, 0, "a.go", 5⟩⟩
          [⟨"user", 15, 0, "x", Iface.none⟩]).localFields)
            serviceContextKey
          = countKey [⟨"user", 15, 0, "x", Iface.none⟩]
              serviceContextKey + 1
        ∧ ServiceContext "unknown" ∈
            (write ⟨[], [], [], ⟨true, ""⟩⟩ (fun _ _ => none) none
              ⟨2, 0, "boom", ⟨true, 0, "a.go", 5⟩⟩
              [⟨"user", 15, 0, "x", Iface.none⟩]).localFields) :=
  ⟨by decide, by decide, by decide,
   (c4_error_report_rule ⟨[], [], [], ⟨true, ""⟩⟩ (fun _ _ => none) none
      ⟨2, 0, "boom", ⟨true, 0, "a.go", 5⟩⟩
      [⟨"user", 15, 0, "x", Iface.none⟩]).2
     (by decide) (by decide) (by decide)⟩

/-- C4 is false as stated: with reporting configured, error severity, a
defined caller and an empty service name, a caller-supplied
service-context field makes the error-report rule fire (one error-report
field is appended) while **no** additional generic service-context field
is appended — the caller's field suppresses the "unknown" fallback. -/
theorem c4_counterexample :
    errorReportFires ⟨true, ""⟩ ⟨2, 0, "boom", ⟨true, 0, "a.go", 5⟩⟩
        [⟨"serviceContext", 15, 0, "mine", Iface.none⟩] = true
    ∧ countKey ((write ⟨[], [], [], ⟨true, ""⟩⟩ (fun _ _ => none) none
          ⟨2, 0, "boom", ⟨true, 0, "a.go", 5⟩⟩
          [⟨"serviceContext", 15, 0, "mine", Iface.none⟩]).localFields)
        contextKey = 1
    ∧ countKey ((write ⟨[], [], [], ⟨true, ""⟩⟩ (fun _ _ => none) none
          ⟨2, 0, "boom", ⟨true, 0, "a.go", 5⟩⟩
          [⟨"serviceContext", 15, 0, "mine", Iface.none⟩]).localFields)
        serviceContextKey
      = countKey [⟨"serviceContext", 15, 0, "mine", Iface.none⟩]
          serviceContextKey
    ∧ ServiceContext "unknown" ∉
        (write ⟨[], [], [], ⟨true, ""⟩⟩ (fun _ _ => none) none
          ⟨2, 0, "boom", ⟨true, 0, "a.go", 5⟩⟩
          [⟨"serviceContext", 15, 0, "mine", Iface.none⟩]).localFields :=
  by decide

end Zapdriver
